import Mathlib

/-!
Shallow embedding of `code/utilities/bitget_futures_demo.py` (class `BitgetFutures`),
a thin wrapper around an exchange-connectivity session.

The external session is modelled as a record of response functions; fallible
collaborator calls return `Except String α`.  Wrapper methods that issue several
underlying calls additionally return the trace of calls they issued, so that
claims about *how many* requests are made become statements about that trace.
Machine time (`time.time() * 1000`) is passed in as an explicit `now : Int`
parameter.  Floats are modelled as `Rat`.
-/

namespace BitgetFutures

/-- Market metadata record, as read from the session's cached markets
(`self.session.market(symbol)`); only the exchange-internal id is used by the
wrapper methods. -/
structure Market where
  id : String
  deriving DecidableEq, Repr

/-- An order-creation request as shaped by the wrapper and handed to
`self.session.create_order(market_id, type, side, amount, [price], params)`.
`amount`, `price` and `triggerPrice` are the precision-formatted strings. -/
structure CreateOrderReq where
  marketId : String
  ordType : String
  side : String
  amount : String
  price : Option String
  reduceOnly : Bool
  triggerPrice : Option String
  deriving DecidableEq, Repr

/-- Opaque exchange response for an order (a dynamically shaped dict). -/
def OrderResp : Type := List (String × String)

instance : DecidableEq OrderResp := by
  unfold OrderResp
  infer_instance

/-- A position entry returned by `self.session.fetch_positions`.  The code reads
`float(pos.get('contracts', 0))`, so an absent `contracts` key is modelled as
`none` and defaults to `0`. -/
structure Position where
  contracts : Option Rat
  side : String
  deriving DecidableEq, Repr

/-- One underlying `self.session.set_leverage(leverage, market_id, params)` call;
`holdSide` is the optional `params={'holdSide': side}` entry. -/
structure LeverageCall where
  leverage : Int
  marketId : String
  holdSide : Option String
  deriving DecidableEq, Repr

/-- One candle row `[timestamp, open, high, low, close, volume]` returned by
`self.session.fetch_ohlcv`. -/
structure Candle where
  ts : Int
  o : Rat
  hi : Rat
  lo : Rat
  c : Rat
  v : Rat
  deriving DecidableEq, Repr

/-- One page request issued by the pagination loop in `fetch_recent_ohlcv`:
`self.session.fetch_ohlcv(symbol, timeframe, params={"startTime": …,
"endTime": …, "limit": 200})`. -/
structure OhlcvReq where
  symbol : String
  timeframe : String
  startTime : Int
  endTime : Int
  limit : Nat
  deriving DecidableEq, Repr

/-- The external ccxt session, modelled as a record of response functions.
Each fallible collaborator call returns `Except String α`; a `.error` models the
Python call raising. -/
structure Session where
  market : String → Except String Market
  amount_to_precision : String → Rat → Except String String
  price_to_precision : String → Rat → Except String String
  create_order : CreateOrderReq → Except String OrderResp
  fetch_positions : List String → Except String (List Position)
  set_leverage : LeverageCall → Except String Unit
  fetch_ohlcv : OhlcvReq → Except String (List Candle)

/-- Credentials passed to the constructor via `api_setup`
(`apiKey` / `secret` / `password`, all optional). -/
structure ApiSetup where
  apiKey : Option String
  secret : Option String
  password : Option String
  deriving DecidableEq, Repr

/-- The ccxt configuration dict built by `BitgetFutures.__init__`. -/
structure SessionConfig where
  apiKey : Option String
  secret : Option String
  password : Option String
  enableRateLimit : Bool
  defaultType : String
  headers : List (String × String)
  deriving DecidableEq, Repr

/-- Embeds `BitgetFutures.__init__`: builds the ccxt configuration from the
optional `api_setup` dict.  The code unconditionally sets
`"defaultType": "swap"` and the header `"PAPTRADING": "1"` (demo environment);
no constructor input selects the production environment. -/
def init (api_setup : Option ApiSetup) : SessionConfig :=
  let s := api_setup.getD ⟨none, none, none⟩
  { apiKey := s.apiKey
    secret := s.secret
    password := s.password
    enableRateLimit := true
    defaultType := "swap"
    headers := [("PAPTRADING", "1")] }

/-- Embeds `BitgetFutures.fetch_open_positions`: looks up the market, fetches
positions for its id, and keeps entries with `float(pos.get('contracts', 0)) > 0`. -/
def fetch_open_positions (sess : Session) (symbol : String) :
    Except String (List Position) := do
  let market ← sess.market symbol
  let positions ← sess.fetch_positions [market.id]
  pure (positions.filter fun pos => 0 < pos.contracts.getD 0)

/-- Embeds `BitgetFutures.set_leverage`.  Returns the trace of underlying
`set_leverage` calls issued (in order) together with the propagated outcome:
for `margin_mode == 'isolated'` the code loops over `['long', 'short']`, issuing
one call per side; otherwise it issues a single call without `holdSide`. -/
def set_leverage (sess : Session) (symbol : String) (margin_mode : String)
    (leverage : Int) : List LeverageCall × Except String Unit :=
  match sess.market symbol with
  | .error e => ([], .error e)
  | .ok market =>
    if margin_mode = "isolated" then
      let c1 : LeverageCall := ⟨leverage, market.id, some "long"⟩
      match sess.set_leverage c1 with
      | .error e => ([c1], .error e)
      | .ok _ =>
        let c2 : LeverageCall := ⟨leverage, market.id, some "short"⟩
        match sess.set_leverage c2 with
        | .error e => ([c1, c2], .error e)
        | .ok _ => ([c1, c2], .ok ())
    else
      let c : LeverageCall := ⟨leverage, market.id, none⟩
      ([c], sess.set_leverage c)

/-- Embeds `BitgetFutures.place_market_order`: market lookup, amount precision
formatting, then `create_order(market['id'], 'market', side, amount, params)`.
Every failure propagates (there is no try/except in this method). -/
def place_market_order (sess : Session) (symbol : String) (side : String)
    (amount : Rat) (reduce : Bool) : Except String OrderResp := do
  let market ← sess.market symbol
  let amountS ← sess.amount_to_precision symbol amount
  sess.create_order ⟨market.id, "market", side, amountS, none, reduce, none⟩

/-- The body of the `try:` block of `BitgetFutures.place_trigger_market_order`:
market lookup, precision formatting of amount and trigger price, then
`create_order(market['id'], 'market', side, amount, params)` with
`params={'reduceOnly': reduce, 'triggerPrice': trigger_price}`. -/
def triggerMarketPipeline (sess : Session) (symbol : String) (side : String)
    (amount : Rat) (trigger_price : Rat) (reduce : Bool) :
    Except String OrderResp := do
  let market ← sess.market symbol
  let amountS ← sess.amount_to_precision symbol amount
  let triggerS ← sess.price_to_precision symbol trigger_price
  sess.create_order ⟨market.id, "market", side, amountS, none, reduce, some triggerS⟩

/-- Embeds `BitgetFutures.place_trigger_market_order`: runs the `try:` body;
on any exception it prints the error (modelled as the returned log list) and
returns `None`.  The result type has no error channel: nothing propagates. -/
def place_trigger_market_order (sess : Session) (symbol : String) (side : String)
    (amount : Rat) (trigger_price : Rat) (reduce : Bool) :
    List String × Option OrderResp :=
  match triggerMarketPipeline sess symbol side amount trigger_price reduce with
  | .ok o => ([], some o)
  | .error e => ([e], none)

/-- The body of the `try:` block of `BitgetFutures.place_trigger_limit_order`:
market lookup, precision formatting of amount, trigger price and limit price,
then `create_order(market['id'], 'limit', side, amount, price, params)`. -/
def triggerLimitPipeline (sess : Session) (symbol : String) (side : String)
    (amount : Rat) (trigger_price : Rat) (price : Rat) (reduce : Bool) :
    Except String OrderResp := do
  let market ← sess.market symbol
  let amountS ← sess.amount_to_precision symbol amount
  let triggerS ← sess.price_to_precision symbol trigger_price
  let priceS ← sess.price_to_precision symbol price
  sess.create_order ⟨market.id, "limit", side, amountS, some priceS, reduce, some triggerS⟩

/-- Embeds `BitgetFutures.place_trigger_limit_order`: runs the `try:` body; on
any exception it prints the error (the returned log list) and returns `None`. -/
def place_trigger_limit_order (sess : Session) (symbol : String) (side : String)
    (amount : Rat) (trigger_price : Rat) (price : Rat) (reduce : Bool) :
    List String × Option OrderResp :=
  match triggerLimitPipeline sess symbol side amount trigger_price price reduce with
  | .ok o => ([], some o)
  | .error e => ([e], none)

/-- Embeds the `ms_map` dict of `fetch_recent_ohlcv`: timeframe key to its
duration in milliseconds; an unknown key is `none` (Python raises `KeyError`). -/
def ms_map : String → Option Nat
  | "1m" => some 60000
  | "5m" => some 300000
  | "15m" => some 900000
  | "30m" => some 1800000
  | "1h" => some 3600000
  | "2h" => some 7200000
  | "4h" => some 14400000
  | "1d" => some 86400000
  | _ => none

/-- The per-request page size `bitget_fetch_limit = 200` of `fetch_recent_ohlcv`. -/
def bitget_fetch_limit : Nat := 200

/-- Embeds the `while current_ts < end_ts:` pagination loop of
`fetch_recent_ohlcv`.  Each iteration requests the window
`[current_ts, min(current_ts + 200*ms, end_ts)]` with `limit` 200, extends the
accumulator with the returned rows, and advances `current_ts` by `200*ms + 1`.
Returns the trace of page requests issued together with either the accumulated
rows or the first error raised by the session (which propagates). -/
def fetchOhlcvLoop (fetch : OhlcvReq → Except String (List Candle))
    (symbol : String) (timeframe : String) (ms : Nat) (endTs : Int)
    (currentTs : Int) : List OhlcvReq × Except String (List Candle) :=
  if currentTs < endTs then
    let reqEnd := min (currentTs + bitget_fetch_limit * ms) endTs
    let req : OhlcvReq := ⟨symbol, timeframe, currentTs, reqEnd, bitget_fetch_limit⟩
    match fetch req with
    | .error e => ([req], .error e)
    | .ok page =>
      let rest := fetchOhlcvLoop fetch symbol timeframe ms endTs
        (currentTs + bitget_fetch_limit * ms + 1)
      (req :: rest.1, rest.2.map fun rows => page ++ rows)
  else ([], .ok [])
  termination_by (endTs - currentTs).toNat
  decreasing_by
    simp only [bitget_fetch_limit]
    omega

/-- Embeds `BitgetFutures.fetch_recent_ohlcv`.  `now` is `int(time.time()*1000)`
(= `end_ts`); `start_ts = end_ts - limit * ms_map[timeframe]`.  An unknown
timeframe raises `KeyError` before any page request; otherwise the pagination
loop runs and the accumulated rows are sorted ascending by timestamp
(`df.sort_index()`).  Returns the trace of page requests issued together with
the resulting candle series (or the propagated error). -/
def fetch_recent_ohlcv (sess : Session) (now : Int) (symbol : String)
    (timeframe : String) (limit : Int) :
    List OhlcvReq × Except String (List Candle) :=
  match ms_map timeframe with
  | none => ([], .error ("KeyError: " ++ timeframe))
  | some ms =>
    let end_ts := now
    let start_ts := end_ts - limit * ms
    let res := fetchOhlcvLoop sess.fetch_ohlcv symbol timeframe ms end_ts start_ts
    (res.1, res.2.map fun rows => rows.mergeSort fun a b => a.ts ≤ b.ts)

namespace Ccxt

/-- Modelled from the spec: the external ccxt library's precision formatter
(`session.amount_to_precision` / `session.price_to_precision`) is not part of
this repository.  Per the spec it is a pure function "converting a raw
amount/price into the string representation matching the instrument's precision
rules": with `p` decimal places of precision, the value is rounded to the
nearest multiple of `10^(-p)`; `roundToPrecision` gives that multiple scaled to
an integer. -/
def roundToPrecision (p : Nat) (q : Rat) : Int := round (q * 10 ^ p)

/-- Modelled from the spec: the rational value denoted by a formatted string
with `p` decimal places and scaled integral value `n`. -/
def precisionValue (p : Nat) (n : Int) : Rat := (n : Rat) / 10 ^ p

/-- Modelled from the spec: renders the scaled integral value `n` as a decimal
string with exactly `p` fractional digits. -/
def decimalString (p : Nat) (n : Int) : String :=
  let m := n.natAbs
  let sign := if n < 0 then "-" else ""
  if p = 0 then sign ++ toString m
  else
    let fracStr := toString (m % 10 ^ p)
    let pad := String.mk (List.replicate (p - fracStr.length) '0')
    sign ++ toString (m / 10 ^ p) ++ "." ++ pad ++ fracStr

/-- Modelled from the spec: `session.amount_to_precision(symbol, amount)`, with
the instrument's amount precision abstracted to its decimal-place count `p`. -/
def amount_to_precision (p : Nat) (q : Rat) : String :=
  decimalString p (roundToPrecision p q)

/-- Modelled from the spec: `session.price_to_precision(symbol, price)`, with
the instrument's price precision abstracted to its decimal-place count `p`. -/
def price_to_precision (p : Nat) (q : Rat) : String :=
  decimalString p (roundToPrecision p q)

end Ccxt

/-- A session whose collaborator calls all succeed with fixed benign responses;
used to evaluate the wrapper methods at concrete inputs. -/
def trivSession : Session where
  market := fun _ => .ok ⟨"MKTID"⟩
  amount_to_precision := fun _ _ => .ok "1.0"
  price_to_precision := fun _ _ => .ok "2.0"
  create_order := fun _ => .ok []
  fetch_positions := fun _ => .ok []
  set_leverage := fun _ => .ok ()
  fetch_ohlcv := fun _ => .ok []

/-- A session whose order submission raises; the other calls succeed. -/
def failSession : Session :=
  { trivSession with create_order := fun _ => .error "submit failed" }

/-- A session returning one open, one zero-size, and one size-absent position. -/
def posSession : Session :=
  { trivSession with
    fetch_positions := fun _ =>
      .ok [⟨some 1, "long"⟩, ⟨some 0, "short"⟩, ⟨none, "long"⟩] }

/-- The page returned by `pageSession` for a request: a single candle at the
window start when the window is well-formed, and nothing otherwise. -/
def onePage (r : OhlcvReq) : List Candle :=
  if r.startTime ≤ r.endTime then [⟨r.startTime, 0, 0, 0, 0, 0⟩] else []

/-- A session answering every candle page request with `onePage`. -/
def pageSession : Session :=
  { trivSession with fetch_ohlcv := fun r => .ok (onePage r) }

theorem fetchOhlcvLoop_stop (fetch : OhlcvReq → Except String (List Candle))
    (s tf : String) (ms : Nat) (endTs cur : Int) (h : ¬ cur < endTs) :
    fetchOhlcvLoop fetch s tf ms endTs cur = ([], .ok []) := by
  rw [fetchOhlcvLoop]
  simp [h]

theorem fetchOhlcvLoop_step (fetch : OhlcvReq → Except String (List Candle))
    (s tf : String) (ms : Nat) (endTs cur reqEnd : Int) (h : cur < endTs)
    (hEnd : reqEnd = min (cur + bitget_fetch_limit * ms) endTs) :
    fetchOhlcvLoop fetch s tf ms endTs cur =
      match fetch ⟨s, tf, cur, reqEnd, bitget_fetch_limit⟩ with
      | .error e => ([⟨s, tf, cur, reqEnd, bitget_fetch_limit⟩], .error e)
      | .ok page =>
        (⟨s, tf, cur, reqEnd, bitget_fetch_limit⟩ ::
            (fetchOhlcvLoop fetch s tf ms endTs (cur + bitget_fetch_limit * ms + 1)).1,
          (fetchOhlcvLoop fetch s tf ms endTs (cur + bitget_fetch_limit * ms + 1)).2.map
            fun rows => page ++ rows) := by
  subst hEnd
  rw [fetchOhlcvLoop]
  simp [h]

theorem fetchOhlcvLoop_fst_bounds (fetch : OhlcvReq → Except String (List Candle))
    (s tf : String) (ms : Nat) (endTs : Int) :
    ∀ (cur : Int) (r : OhlcvReq), r ∈ (fetchOhlcvLoop fetch s tf ms endTs cur).1 →
      cur ≤ r.startTime ∧ r.startTime ≤ r.endTime ∧ r.endTime ≤ endTs := by
  have hL : (0 : Int) ≤ (bitget_fetch_limit : Int) * (ms : Int) := by positivity
  intro cur
  induction cur using fetchOhlcvLoop.induct fetch s tf ms endTs with
  | case1 x hlt reqEnd req e hfe =>
    intro r hr
    rw [fetchOhlcvLoop] at hr
    simp only [if_pos hlt, hfe] at hr
    simp at hr
    subst hr
    dsimp only
    refine ⟨le_refl x, le_min (by omega) (by omega), min_le_right _ _⟩
  | case2 x hlt reqEnd req page hfo ih =>
    intro r hr
    rw [fetchOhlcvLoop] at hr
    simp only [if_pos hlt, hfo] at hr
    simp at hr
    rcases hr with hr | hr
    · subst hr
      dsimp only
      refine ⟨le_refl x, le_min (by omega) (by omega), min_le_right _ _⟩
    · obtain ⟨h1, h2, h3⟩ := ih r hr
      exact ⟨by omega, h2, h3⟩
  | case3 x hge =>
    intro r hr
    rw [fetchOhlcvLoop] at hr
    simp [if_neg hge] at hr

theorem fetchOhlcvLoop_fst_pairwise (fetch : OhlcvReq → Except String (List Candle))
    (s tf : String) (ms : Nat) (endTs : Int) :
    ∀ (cur : Int),
      ((fetchOhlcvLoop fetch s tf ms endTs cur).1).Pairwise
        (fun r1 r2 => r1.endTime < r2.startTime) := by
  intro cur
  induction cur using fetchOhlcvLoop.induct fetch s tf ms endTs with
  | case1 x hlt reqEnd req e hfe =>
    rw [fetchOhlcvLoop]
    simp [if_pos hlt, hfe]
  | case2 x hlt reqEnd req page hfo ih =>
    rw [fetchOhlcvLoop]
    simp only [if_pos hlt, hfo]
    refine List.Pairwise.cons ?_ ih
    intro r hr
    have hb := (fetchOhlcvLoop_fst_bounds fetch s tf ms endTs _ r hr).1
    exact lt_of_le_of_lt (min_le_left _ _) (by omega)
  | case3 x hge =>
    rw [fetchOhlcvLoop]
    simp [if_neg hge]

theorem fetchOhlcvLoop_snd_ok (fetch : OhlcvReq → Except String (List Candle))
    (s tf : String) (ms : Nat) (endTs : Int) (pages : OhlcvReq → List Candle)
    (hfetch : ∀ r, fetch r = .ok (pages r)) :
    ∀ (cur : Int),
      (fetchOhlcvLoop fetch s tf ms endTs cur).2 =
        .ok (((fetchOhlcvLoop fetch s tf ms endTs cur).1.map pages).flatten) := by
  intro cur
  induction cur using fetchOhlcvLoop.induct fetch s tf ms endTs with
  | case1 x hlt reqEnd req e hfe =>
    rw [hfetch] at hfe
    exact absurd hfe (by simp)
  | case2 x hlt reqEnd req page hfo ih =>
    rw [fetchOhlcvLoop]
    simp only [if_pos hlt, hfo]
    have hpage : page = pages req := by
      simpa using hfo.symm.trans (hfetch req)
    simp [ih, hpage, Except.map]
  | case3 x hge =>
    rw [fetchOhlcvLoop]
    simp [if_neg hge]

/-- C1 amended: for every call to `fetch_recent_ohlcv` with limit 500 and
timeframe "1m" (page size 200 candles) against a session that returns normally,
exactly 3 page requests are issued, with each subsequent window start equal to
the prior window's start + (200×60000 + 1) ms — equivalently, the prior
window's end request boundary + 1 ms. -/
theorem fetch_recent_ohlcv_1m_500_three_pages (sess : Session) (now : Int)
    (symbol : String) (hfetch : ∀ r, ∃ p, sess.fetch_ohlcv r = .ok p) :
    (fetch_recent_ohlcv sess now symbol "1m" 500).1.map
      (fun r => (r.startTime, r.endTime)) =
      [(now - 30000000, now - 18000000), (now - 17999999, now - 5999999),
        (now - 5999998, now)] ∧
    (fetch_recent_ohlcv sess now symbol "1m" 500).1.length = 3 := by
  have hmap : (fetch_recent_ohlcv sess now symbol "1m" 500).1.map
      (fun r => (r.startTime, r.endTime)) =
      [(now - 30000000, now - 18000000), (now - 17999999, now - 5999999),
        (now - 5999998, now)] := by
    simp only [fetch_recent_ohlcv, ms_map]
    have e0 : now - 500 * ((60000 : Nat) : Int) = now - 30000000 := by push_cast; ring
    rw [e0]
    obtain ⟨p1, hp1⟩ := hfetch ⟨symbol, "1m", now - 30000000, now - 18000000, bitget_fetch_limit⟩
    rw [fetchOhlcvLoop_step sess.fetch_ohlcv symbol "1m" 60000 now (now - 30000000)
      (now - 18000000) (by omega)
      (by simp only [bitget_fetch_limit]; rw [min_eq_left (by push_cast; omega)]; push_cast; ring)]
    rw [hp1]
    have e1 : now - 30000000 + (bitget_fetch_limit : Int) * ((60000 : Nat) : Int) + 1 =
        now - 17999999 := by
      simp only [bitget_fetch_limit]; push_cast; ring
    rw [e1]
    obtain ⟨p2, hp2⟩ := hfetch ⟨symbol, "1m", now - 17999999, now - 5999999, bitget_fetch_limit⟩
    rw [fetchOhlcvLoop_step sess.fetch_ohlcv symbol "1m" 60000 now (now - 17999999)
      (now - 5999999) (by omega)
      (by simp only [bitget_fetch_limit]; rw [min_eq_left (by push_cast; omega)]; push_cast; ring)]
    rw [hp2]
    have e2 : now - 17999999 + (bitget_fetch_limit : Int) * ((60000 : Nat) : Int) + 1 =
        now - 5999998 := by
      simp only [bitget_fetch_limit]; push_cast; ring
    rw [e2]
    obtain ⟨p3, hp3⟩ := hfetch ⟨symbol, "1m", now - 5999998, now, bitget_fetch_limit⟩
    rw [fetchOhlcvLoop_step sess.fetch_ohlcv symbol "1m" 60000 now (now - 5999998)
      now (by omega)
      (by simp only [bitget_fetch_limit]; rw [min_eq_right (by push_cast; omega)])]
    rw [hp3]
    have e3 : now - 5999998 + (bitget_fetch_limit : Int) * ((60000 : Nat) : Int) + 1 =
        now + 6000003 := by
      simp only [bitget_fetch_limit]; push_cast; ring
    rw [e3]
    rw [fetchOhlcvLoop_stop sess.fetch_ohlcv symbol "1m" 60000 now (now + 6000003) (by omega)]
    simp
  refine ⟨hmap, ?_⟩
  have := congrArg List.length hmap
  simpa using this

/-- C1 witness: at `now = 30000000` against the all-ok session, the three page
windows are `(0, 12000000)`, `(12000001, 24000001)`, `(24000002, 30000000)`. -/
theorem fetch_recent_ohlcv_1m_500_three_pages_witness :
    (fetch_recent_ohlcv trivSession 30000000 "BTC/USDT:USDT" "1m" 500).1.map
      (fun r => (r.startTime, r.endTime)) =
      [(0, 12000000), (12000001, 24000001), (24000002, 30000000)] ∧
    (fetch_recent_ohlcv trivSession 30000000 "BTC/USDT:USDT" "1m" 500).1.length = 3 := by
  have h := fetch_recent_ohlcv_1m_500_three_pages trivSession 30000000 "BTC/USDT:USDT"
    (fun r => ⟨[], rfl⟩)
  constructor
  · rw [h.1]
    norm_num
  · exact h.2

/-- C1 counterexample: at `now = 30000000` the second window starts at
`12000001`, which is the first window's end request boundary (`12000000`)
plus 1 ms — not plus `200×60000 + 1` ms as the claim states (that would be
`24000001`). -/
theorem fetch_recent_ohlcv_1m_500_window_advance_counterexample :
    ((fetch_recent_ohlcv trivSession 30000000 "BTC/USDT:USDT" "1m" 500).1.map
        (fun r => (r.startTime, r.endTime))) =
      [(0, 12000000), (12000001, 24000001), (24000002, 30000000)] ∧
    ((fetch_recent_ohlcv trivSession 30000000 "BTC/USDT:USDT" "1m" 500).1.map
        OhlcvReq.startTime)[1]? ≠
      ((fetch_recent_ohlcv trivSession 30000000 "BTC/USDT:USDT" "1m" 500).1.map
        (fun r => r.endTime + ((bitget_fetch_limit : Int) * 60000 + 1)))[0]? := by
  have hw : (fetch_recent_ohlcv trivSession 30000000 "BTC/USDT:USDT" "1m" 500).1 =
      [⟨"BTC/USDT:USDT", "1m", 0, 12000000, 200⟩,
        ⟨"BTC/USDT:USDT", "1m", 12000001, 24000001, 200⟩,
        ⟨"BTC/USDT:USDT", "1m", 24000002, 30000000, 200⟩] := by
    simp only [fetch_recent_ohlcv, ms_map]
    norm_num
    rw [fetchOhlcvLoop_step trivSession.fetch_ohlcv "BTC/USDT:USDT" "1m" 60000 30000000
      0 12000000 (by decide) (by simp only [bitget_fetch_limit]; decide)]
    simp only [trivSession]
    have a1 : (0 : Int) + (bitget_fetch_limit : Int) * ((60000 : Nat) : Int) + 1 = 12000001 := by
      simp only [bitget_fetch_limit]; decide
    rw [a1]
    rw [fetchOhlcvLoop_step _ "BTC/USDT:USDT" "1m" 60000 30000000
      12000001 24000001 (by decide) (by simp only [bitget_fetch_limit]; decide)]
    have a2 : (12000001 : Int) + (bitget_fetch_limit : Int) * ((60000 : Nat) : Int) + 1 = 24000002 := by
      simp only [bitget_fetch_limit]; decide
    rw [a2]
    rw [fetchOhlcvLoop_step _ "BTC/USDT:USDT" "1m" 60000 30000000
      24000002 30000000 (by decide) (by simp only [bitget_fetch_limit]; decide)]
    have a3 : (24000002 : Int) + (bitget_fetch_limit : Int) * ((60000 : Nat) : Int) + 1 = 36000003 := by
      simp only [bitget_fetch_limit]; decide
    rw [a3]
    rw [fetchOhlcvLoop_stop _ "BTC/USDT:USDT" "1m" 60000 30000000 36000003 (by decide)]
    simp [bitget_fetch_limit]
  rw [hw]
  simp [bitget_fetch_limit]

/-- C8: for every call to `fetch_recent_ohlcv` that returns, against a session
whose pages respect the requested windows and contain no internal duplicate
timestamps, the returned candle series is a permutation of the concatenation of
all fetched pages, is sorted ascending by timestamp, and has no duplicate
timestamps — the request windows are disjoint by construction. -/
theorem fetch_recent_ohlcv_sorted_concat_nodup (sess : Session) (now : Int)
    (symbol tf : String) (limit : Int) (ms : Nat) (pages : OhlcvReq → List Candle)
    (hms : ms_map tf = some ms)
    (hfetch : ∀ r, sess.fetch_ohlcv r = .ok (pages r))
    (hwin : ∀ r, ∀ cdl ∈ pages r, r.startTime ≤ cdl.ts ∧ cdl.ts ≤ r.endTime)
    (hnd : ∀ r, ((pages r).map Candle.ts).Nodup) :
    ∃ data,
      (fetch_recent_ohlcv sess now symbol tf limit).2 = .ok data ∧
      data.Perm (((fetch_recent_ohlcv sess now symbol tf limit).1.map pages).flatten) ∧
      data.Pairwise (fun a b => a.ts ≤ b.ts) ∧
      (data.map Candle.ts).Nodup := by
  have hok := fetchOhlcvLoop_snd_ok sess.fetch_ohlcv symbol tf ms now pages hfetch
    (now - limit * ms)
  have hpw := fetchOhlcvLoop_fst_pairwise sess.fetch_ohlcv symbol tf ms now
    (now - limit * ms)
  simp only [fetch_recent_ohlcv, hms]
  set reqs := (fetchOhlcvLoop sess.fetch_ohlcv symbol tf ms now (now - limit * ms)).1
    with hreqs
  set flat := (reqs.map pages).flatten with hflat
  refine ⟨flat.mergeSort (fun a b => a.ts ≤ b.ts), ?_, ?_, ?_, ?_⟩
  · simp only [hok, Except.map]
  · simp only [List.mergeSort_perm]
  · have hs := @List.sorted_mergeSort Candle (fun a b => a.ts ≤ b.ts)
      (by intro a b c hab hbc; simp at hab hbc ⊢; omega)
      (by intro a b; simp; omega) flat
    simpa [List.Sorted] using hs
  · have hflatnd : (flat.map Candle.ts).Nodup := by
      rw [hflat, List.map_flatten, List.map_map]
      rw [List.nodup_flatten]
      constructor
      · intro l hl
        simp only [List.mem_map] at hl
        obtain ⟨r, hr, hrl⟩ := hl
        rw [← hrl]
        exact hnd r
      · have : reqs.Pairwise (fun r1 r2 =>
            List.Disjoint ((List.map Candle.ts ∘ pages) r1) ((List.map Candle.ts ∘ pages) r2)) := by
          refine hpw.imp ?_
          intro r1 r2 hlt t ht1 ht2
          simp only [Function.comp, List.mem_map] at ht1 ht2
          obtain ⟨c1, hc1, hc1t⟩ := ht1
          obtain ⟨c2, hc2, hc2t⟩ := ht2
          have b1 := (hwin r1 c1 hc1).2
          have b2 := (hwin r2 c2 hc2).1
          omega
        exact List.pairwise_map.mpr this
    have pm : ((flat.mergeSort fun a b => a.ts ≤ b.ts).map Candle.ts).Perm
        (flat.map Candle.ts) := (List.mergeSort_perm flat _).map Candle.ts
    exact pm.symm.nodup hflatnd

/-- C8 witness: against a session answering each page request with one candle at
the window start, the call at timeframe "1d", limit 2 returns an ordered,
duplicate-free series that is a permutation of the concatenated pages. -/
theorem fetch_recent_ohlcv_sorted_concat_nodup_witness :
    ∃ data,
      (fetch_recent_ohlcv pageSession 172800000 "BTC/USDT:USDT" "1d" 2).2 = .ok data ∧
      data.Perm (((fetch_recent_ohlcv pageSession 172800000 "BTC/USDT:USDT" "1d" 2).1.map
        onePage).flatten) ∧
      data.Pairwise (fun a b => a.ts ≤ b.ts) ∧
      (data.map Candle.ts).Nodup :=
  fetch_recent_ohlcv_sorted_concat_nodup pageSession 172800000 "BTC/USDT:USDT" "1d" 2
    86400000 onePage rfl (fun r => rfl)
    (by
      intro r cdl hc
      unfold onePage at hc
      by_cases h : r.startTime ≤ r.endTime
      · simp [h] at hc
        subst hc
        exact ⟨le_refl _, h⟩
      · simp [h] at hc)
    (by
      intro r
      unfold onePage
      split <;> simp)

/-- C2: for every call to `place_trigger_market_order` or
`place_trigger_limit_order`, if any failure is raised during parameter shaping
(market lookup, precision formatting) or during submission, the operation
catches the failure, logs it, and returns an absent (`none`) result instead of
propagating the error. -/
theorem trigger_orders_swallow_and_log (sess : Session) (symbol side : String)
    (amount trigger_price price : Rat) (reduce : Bool) (e : String) :
    (triggerMarketPipeline sess symbol side amount trigger_price reduce = .error e →
      place_trigger_market_order sess symbol side amount trigger_price reduce = ([e], none)) ∧
    (triggerLimitPipeline sess symbol side amount trigger_price price reduce = .error e →
      place_trigger_limit_order sess symbol side amount trigger_price price reduce = ([e], none)) := by
  constructor
  · intro h
    simp [place_trigger_market_order, h]
  · intro h
    simp [place_trigger_limit_order, h]

/-- C2 witness: against a session whose order submission raises, both trigger
placements log the error and return `none`. -/
theorem trigger_orders_swallow_and_log_witness :
    place_trigger_market_order failSession "BTC/USDT:USDT" "buy" 1 2 false =
      (["submit failed"], none) ∧
    place_trigger_limit_order failSession "BTC/USDT:USDT" "buy" 1 2 3 false =
      (["submit failed"], none) :=
  ⟨(trigger_orders_swallow_and_log failSession "BTC/USDT:USDT" "buy" 1 2 3 false
      "submit failed").1 rfl,
    (trigger_orders_swallow_and_log failSession "BTC/USDT:USDT" "buy" 1 2 3 false
      "submit failed").2 rfl⟩

/-- C3: for every call to `place_market_order`, if the underlying submission
raises an error, that error propagates to the caller unchanged. -/
theorem place_market_order_propagates_error (sess : Session) (symbol side : String)
    (amount : Rat) (reduce : Bool) (m : Market) (amountS : String) (e : String)
    (hm : sess.market symbol = .ok m)
    (ha : sess.amount_to_precision symbol amount = .ok amountS)
    (hc : sess.create_order ⟨m.id, "market", side, amountS, none, reduce, none⟩ = .error e) :
    place_market_order sess symbol side amount reduce = .error e := by
  simp [place_market_order, hm, ha, hc, Bind.bind, Except.bind]

/-- C3 witness: against a session whose order submission raises,
`place_market_order` surfaces exactly that error. -/
theorem place_market_order_propagates_error_witness :
    place_market_order failSession "BTC/USDT:USDT" "buy" 1 false = .error "submit failed" :=
  place_market_order_propagates_error failSession "BTC/USDT:USDT" "buy" 1 false
    ⟨"MKTID"⟩ "1.0" "submit failed" rfl rfl rfl

/-- C4: every position entry returned by `fetch_open_positions` has a contracts
value strictly greater than zero; entries whose contracts value is 0 or absent
are excluded from the result. -/
theorem fetch_open_positions_contracts_pos (sess : Session) (symbol : String)
    (ps : List Position) (h : fetch_open_positions sess symbol = .ok ps) :
    (∀ p ∈ ps, 0 < p.contracts.getD 0) ∧
    (∀ p : Position, (p.contracts = none ∨ p.contracts = some 0) → p ∉ ps) := by
  rcases hm : sess.market symbol with em | m
  · simp [fetch_open_positions, hm, Bind.bind, Except.bind] at h
  rcases hp : sess.fetch_positions [m.id] with ep | l
  · simp [fetch_open_positions, hm, hp, Bind.bind, Except.bind,
      Functor.map, Except.map] at h
  have hps : ps = l.filter fun pos => 0 < pos.contracts.getD 0 := by
    simp [fetch_open_positions, hm, hp, Bind.bind, Except.bind,
      Functor.map, Except.map, pure, Except.pure] at h
    exact h.symm
  subst hps
  constructor
  · intro p hp'
    simp [List.mem_filter] at hp'
    exact hp'.2
  · intro p hcon hp'
    simp [List.mem_filter] at hp'
    rcases hcon with hc | hc <;> simp [hc] at hp'

/-- C4 witness: a session reporting positions with contracts 1, 0 and absent
yields only the contracts-1 entry, and the conclusion holds of that result. -/
theorem fetch_open_positions_contracts_pos_witness :
    (∀ p ∈ [(⟨some 1, "long"⟩ : Position)], 0 < p.contracts.getD 0) ∧
    (∀ p : Position, (p.contracts = none ∨ p.contracts = some 0) →
      p ∉ [(⟨some 1, "long"⟩ : Position)]) :=
  fetch_open_positions_contracts_pos posSession "BTC/USDT:USDT" [⟨some 1, "long"⟩] rfl

/-- C6: with margin mode "isolated" (and the first underlying call succeeding so
the loop continues), `set_leverage` issues exactly two underlying calls, one
with hold side long and one with hold side short; with margin mode "cross" it
issues exactly one underlying call with no side parameter. -/
theorem set_leverage_call_counts (sess : Session) (symbol : String) (leverage : Int)
    (m : Market) (hm : sess.market symbol = .ok m)
    (h1 : sess.set_leverage ⟨leverage, m.id, some "long"⟩ = .ok ()) :
    (set_leverage sess symbol "isolated" leverage).1 =
      [⟨leverage, m.id, some "long"⟩, ⟨leverage, m.id, some "short"⟩] ∧
    (set_leverage sess symbol "cross" leverage).1 = [⟨leverage, m.id, none⟩] := by
  constructor
  · simp only [set_leverage, hm, if_pos rfl, h1]
    rcases h2 : sess.set_leverage ⟨leverage, m.id, some "short"⟩ <;> simp
  · simp [set_leverage, hm]

/-- C6 witness: against the all-ok session, isolated mode issues the long and
short calls and cross mode issues the single sideless call. -/
theorem set_leverage_call_counts_witness :
    (set_leverage trivSession "BTC/USDT:USDT" "isolated" 5).1 =
      [⟨5, "MKTID", some "long"⟩, ⟨5, "MKTID", some "short"⟩] ∧
    (set_leverage trivSession "BTC/USDT:USDT" "cross" 5).1 = [⟨5, "MKTID", none⟩] :=
  set_leverage_call_counts trivSession "BTC/USDT:USDT" 5 ⟨"MKTID"⟩ rfl rfl

/-- C5: for every call to `fetch_recent_ohlcv` with a timeframe key outside the
enumerated set, the operation fails fast with an unknown-key error; its request
trace is empty, so no page request reaches the underlying session. -/
theorem fetch_recent_ohlcv_unknown_timeframe_fails_fast (sess : Session) (now : Int)
    (symbol tf : String) (limit : Int) (h : ms_map tf = none) :
    fetch_recent_ohlcv sess now symbol tf limit = ([], .error ("KeyError: " ++ tf)) := by
  simp [fetch_recent_ohlcv, h]

/-- C5 witness: timeframe "3m" is not in the map and fails fast. -/
theorem fetch_recent_ohlcv_unknown_timeframe_fails_fast_witness :
    fetch_recent_ohlcv trivSession 1000000 "BTC/USDT:USDT" "3m" 100 =
      ([], .error ("KeyError: " ++ "3m")) :=
  fetch_recent_ohlcv_unknown_timeframe_fails_fast trivSession 1000000 "BTC/USDT:USDT"
    "3m" 100 rfl

/-- C7: for every call to `fetch_recent_ohlcv` with a supported timeframe and a
limit that is zero or negative, the result is an empty candle series and the
request trace is empty (the loop body executes zero times, since the computed
start timestamp is at or after the end timestamp). -/
theorem fetch_recent_ohlcv_nonpos_limit_empty (sess : Session) (now : Int)
    (symbol tf : String) (limit : Int) (ms : Nat) (hms : ms_map tf = some ms)
    (hlim : limit ≤ 0) :
    fetch_recent_ohlcv sess now symbol tf limit = ([], .ok []) := by
  simp only [fetch_recent_ohlcv, hms]
  have h0 : limit * (ms : Int) ≤ 0 :=
    mul_nonpos_iff.mpr (Or.inr ⟨hlim, by positivity⟩)
  rw [fetchOhlcvLoop_stop _ _ _ _ _ _ (by omega)]
  simp [Except.map, List.mergeSort_nil]

/-- C7 witness: limit 0 with timeframe "1h" yields no requests and an empty
series. -/
theorem fetch_recent_ohlcv_nonpos_limit_empty_witness :
    fetch_recent_ohlcv trivSession 1000000 "BTC/USDT:USDT" "1h" 0 = ([], .ok []) :=
  fetch_recent_ohlcv_nonpos_limit_empty trivSession 1000000 "BTC/USDT:USDT" "1h" 0
    3600000 rfl (by decide)

theorem roundToPrecision_precisionValue (p : Nat) (n : Int) :
    Ccxt.roundToPrecision p (Ccxt.precisionValue p n) = n := by
  unfold Ccxt.roundToPrecision Ccxt.precisionValue
  rw [div_mul_cancel₀ _ (pow_ne_zero p (by norm_num : (10 : Rat) ≠ 0))]
  exact round_intCast n

/-- C9: `amount_to_precision` and `price_to_precision` are idempotent — applying
the formatter to the numeric value denoted by an already-formatted string yields
the same string (formatting an already-formatted value is a fixed point). -/
theorem precision_formatting_idempotent (p : Nat) (q : Rat) :
    Ccxt.amount_to_precision p (Ccxt.precisionValue p (Ccxt.roundToPrecision p q)) =
      Ccxt.amount_to_precision p q ∧
    Ccxt.price_to_precision p (Ccxt.precisionValue p (Ccxt.roundToPrecision p q)) =
      Ccxt.price_to_precision p q := by
  unfold Ccxt.amount_to_precision Ccxt.price_to_precision
  rw [roundToPrecision_precisionValue]
  exact ⟨rfl, rfl⟩

/-- C10 counterexample: no construction input yields a session without the
paper-trading header — `init` attaches `PAPTRADING: 1` unconditionally, so the
claimed production (live) configuration is unreachable. -/
theorem init_always_paper_counterexample :
    ¬ ∃ setup : Option ApiSetup, ("PAPTRADING", "1") ∉ (init setup).headers := by
  rintro ⟨setup, h⟩
  exact h (by simp [init])

/-- C10 amended: construction accepts optional credentials (key, secret,
passphrase) and always configures the session for the paper-trading (demo)
environment by attaching the `PAPTRADING` header; no construction input selects
the production environment. -/
theorem init_config_always_demo (setup : Option ApiSetup) :
    (init setup).headers = [("PAPTRADING", "1")] ∧
    (init setup).defaultType = "swap" ∧
    (init setup).enableRateLimit = true ∧
    (init setup).apiKey = (setup.getD ⟨none, none, none⟩).apiKey ∧
    (init setup).secret = (setup.getD ⟨none, none, none⟩).secret ∧
    (init setup).password = (setup.getD ⟨none, none, none⟩).password := by
  simp [init]

end BitgetFutures
